import Mathlib

/-!
Verification of the collision-probability transport engine of scarabee.

This file gives a shallow embedding, over exact rational arithmetic, of
src/src/cylindrical_cell.cpp: the CylindricalCell constructor, the
collision-probability matrix builder (calculate_collision_probabilities and
the optical-depth accumulation inside calculate_S_ij), and the per-group
response-matrix solver (solve_systems).  Floating-point doubles are modelled
as exact rationals; the Eigen Householder QR solve is modelled as the exact
linear solve by Cramer's rule (division by a zero determinant yields zeros,
standing in for the unspecified output Eigen produces on a singular matrix;
in neither case does Eigen signal an error).  The numerical integration of
the attenuation kernel (Gauss-Kronrod applied to the Ki3 difference) is kept
abstract: calculate_S_ij is a deterministic pure function of the cell's
constants, so its value table enters the model as a parameter Sfun, while
the optical-depth loop inside its integrand is embedded faithfully.
-/

/-- Multigroup material record: group count and per-group transport,
scattering and removal cross sections, as consumed by CylindricalCell. -/
structure MGCrossSections where
  ngroups : Nat
  Etr : Nat → ℚ
  Es_tr : Nat → ℚ
  Er_tr : Nat → ℚ

instance : Inhabited MGCrossSections :=
  ⟨⟨0, fun _ => 0, fun _ => 0, fun _ => 0⟩⟩

/-- Modelled from the spec: the constant PI of utils/constants.hpp (the header
is not under src).  The spec gives the volume formula with the circle
constant; we use the exact rational value of the IEEE double nearest to it,
which is the decimal below. -/
def PI : ℚ := 3.141592653589793

/-- Per-region volumes as computed by the constructor (cylindrical_cell.cpp
lines 60-68): vols[i] = PI*r_i*r_i, then PI*r_{i-1}*r_{i-1} subtracted when
i is not 0. -/
def volsOf (radii : List ℚ) : List ℚ :=
  (List.range radii.length).map (fun i =>
    PI * radii.getD i 0 * radii.getD i 0 -
      (if i = 0 then 0 else PI * radii.getD (i - 1) 0 * radii.getD (i - 1) 0))

/-- Embedding of std::is_sorted with the default less-than comparator: no
element is less than its predecessor, i.e. adjacent elements non-decreasing.
Note that this does not require strict ascent. -/
def isSortedAdj : List ℚ → Bool
  | [] => true
  | [_] => true
  | a :: b :: rest => decide (a ≤ b) && isSortedAdj (b :: rest)

/-- State of a successfully constructed cell: radii, derived volumes, the
material bindings and the common group count. -/
structure CylindricalCell where
  radii : List ℚ
  vols : List ℚ
  mats : List MGCrossSections
  ngroups : Nat

/-- Embedding of the CylindricalCell constructor (cylindrical_cell.cpp lines
12-69).  Null material handles are modelled by Option; each ScarabeeException
becomes an error value carrying the same message.  The sortedness check is
std::is_sorted, i.e. adjacent elements non-decreasing. -/
def mkCylindricalCell (radii : List ℚ) (mats : List (Option MGCrossSections)) :
    Except String CylindricalCell :=
  if radii.length ≠ mats.length then
    .error "Number of radii does not match the number of materials."
  else if radii.length < 2 then
    .error "Must have at least 2 regions."
  else if isSortedAdj radii = false then
    .error "Radii are not sorted."
  else if radii.headI ≤ 0 then
    .error "All radii must be > 0."
  else if mats.any (fun m => m.isNone) then
    .error "Nullptr found in materials."
  else
    let ms := mats.filterMap id
    let ng := ms.headI.ngroups
    if ng = 0 then
      .error "Must have at least 1 energy group."
    else if ms.any (fun m => m.ngroups ≠ ng) then
      .error "Not all materials have the same number of energy groups."
    else
      .ok ⟨radii, volsOf radii, ms, ng⟩

/-- Number of annular regions of the cell (nregions() accessor). -/
def CylindricalCell.nregions (c : CylindricalCell) : Nat := c.radii.length

/-- Material bound to region i (mats_[i]). -/
def CylindricalCell.matAt (c : CylindricalCell) (i : Nat) : MGCrossSections :=
  c.mats.getD i default

/-- Volume of region i (vols_[i]). -/
def CylindricalCell.volAt (c : CylindricalCell) (i : Nat) : ℚ :=
  c.vols.getD i 0

/-- Modelled from the spec: the outer surface measure S() of the cell (its
declaration is in the cylindrical_cell header, which is not under src).  The
spec calls it the outer cell surface measure, a fixed geometric constant of
the whole cell; for the cylinder this is the outer circumference. -/
def Ssurf (c : CylindricalCell) : ℚ :=
  2 * PI * c.radii.getD (c.radii.length - 1) 0

/-- Chord x-coordinates computed by the integrand of calculate_S_ij
(cylindrical_cell.cpp lines 140-143) at transverse offset y:
x_n = sqrt(r_{k+n}^2 - y^2) for n below the vector length j + 1 - k, with
the square root kept abstract as a parameter. -/
def chordCoords (sqrtQ : ℚ → ℚ) (radii : List ℚ) (k len : Nat) (y : ℚ) :
    List ℚ :=
  (List.range len).map (fun n =>
    sqrtQ (radii.getD (k + n) 0 * radii.getD (k + n) 0 - y * y))

/-- Optical-depth accumulation of the integrand in calculate_S_ij
(cylindrical_cell.cpp lines 146-165): fold over the segments s of the chord
coordinates x, taking segment length x_s - x_{s-1} (x_{-1} = 0) weighted by
the transport cross section of shell s + k; when the shell index s + k is at
most i the doubled weight goes to tau_pls and nothing to tau_min, otherwise
the weight goes once to each. -/
def tauAccum (x : List ℚ) (Etr : Nat → ℚ) (k i : Nat) : ℚ × ℚ :=
  (List.range x.length).foldl
    (fun tpm s =>
      let t := if s = 0 then x.getD s 0 else x.getD s 0 - x.getD (s - 1) 0
      let dtau := t * Etr (s + k)
      if s + k ≤ i then (tpm.1 + 2 * dtau, tpm.2)
      else (tpm.1 + dtau, tpm.2 + dtau))
    (0, 0)

/-- Segment chord length t_s = x_s - x_{s-1} with x_{-1} = 0, as the spec
describes the per-shell segments. -/
def segLen (x : List ℚ) (s : Nat) : ℚ :=
  if s = 0 then x.getD s 0 else x.getD s 0 - x.getD (s - 1) 0

/-- Optical depth tau_plus as the spec states it: every shell contributes
its weighted segment length, doubled for shells of index at most i. -/
def tauPlusSpec (x : List ℚ) (Etr : Nat → ℚ) (k i : Nat) : ℚ :=
  ∑ s ∈ Finset.range x.length,
    (if s + k ≤ i then 2 else 1) * (segLen x s * Etr (s + k))

/-- Optical depth tau_minus as claim C1 states it: every shell, those of
index at most i included, contributes its weighted segment length once. -/
def tauMinusClaim (x : List ℚ) (Etr : Nat → ℚ) (k : Nat) : ℚ :=
  ∑ s ∈ Finset.range x.length, segLen x s * Etr (s + k)

/-- Optical depth tau_minus as the code computes it: only shells of index
greater than i contribute, once each; shells of index at most i contribute
nothing. -/
def tauMinusCode (x : List ℚ) (Etr : Nat → ℚ) (k i : Nat) : ℚ :=
  ∑ s ∈ Finset.range x.length,
    (if s + k ≤ i then 0 else 1) * (segLen x s * Etr (s + k))

/-- Symmetrised access to the S factors: calculate_S_ij swaps its arguments
when i exceeds j (cylindrical_cell.cpp line 116), so the temporary S matrix
filled on lines 87-93 agrees with this normalisation of an arbitrary value
table. -/
def S_of (Sfun : Nat → Nat → ℚ) (a b : Nat) : ℚ :=
  if a ≤ b then Sfun a b else Sfun b a

/-- Loop body of cylindrical_cell.cpp lines 99-104 loading p(g,i,j) for
i ≤ j: sequential conditional additions of the four S terms, then the
diagonal self-collision term vols_[i] * Etr_i(g) when i = j. -/
def pUpper (S : Nat → Nat → ℚ) (EtrV : Nat → ℚ) (i j : Nat) : ℚ :=
  let p0 := 2 * S i j
  let p1 := if 0 < i ∧ 0 < j then p0 + 2 * S (i - 1) (j - 1) else p0
  let p2 := if 0 < i then p1 + (-2) * S (i - 1) j else p1
  let p3 := if 0 < j then p2 + (-2) * S i (j - 1) else p2
  if i = j then p3 + EtrV i else p3

/-- Entry (i,j) of the per-group collision-probability matrix: computed for
i ≤ j and otherwise assigned by the mirror copy of line 106. -/
def pEntry (S : Nat → Nat → ℚ) (EtrV : Nat → ℚ) (i j : Nat) : ℚ :=
  if i ≤ j then pUpper S EtrV i j else pUpper S EtrV j i

/-- Collision-probability tensor computed by
calculate_collision_probabilities, with the S factors of calculate_S_ij
abstracted as the deterministic value table Sfun over (group, region,
region). -/
def collisionProb (cell : CylindricalCell) (Sfun : Nat → Nat → Nat → ℚ)
    (g i j : Nat) : ℚ :=
  pEntry (S_of (Sfun g)) (fun r => cell.volAt r * (cell.matAt r).Etr g) i j

/-- Determinant by Laplace expansion along the first row; a computable
form of the determinant used by the exact model of the linear solver. -/
def detQ : (n : Nat) → Matrix (Fin n) (Fin n) ℚ → ℚ
  | 0, _ => 1
  | Nat.succ m, A =>
    ∑ j : Fin (m + 1),
      (-1) ^ (j : Nat) * A 0 j * detQ m (A.submatrix Fin.succ j.succAbove)

/-- Matrix with column i replaced by the vector b. -/
def updCol {n : Nat} (A : Matrix (Fin n) (Fin n) ℚ) (i : Fin n)
    (b : Fin n → ℚ) : Matrix (Fin n) (Fin n) ℚ :=
  Matrix.of fun r c => if c = i then b r else A r c

/-- Exact model of the Eigen Householder QR solve: Cramer's rule.  On an
invertible matrix this is the unique solution of A x = b; on a singular
matrix the divisions by the zero determinant return zeros, standing in for
the unspecified values Eigen produces there, and no error is signalled in
either case. -/
def linSolve {n : Nat} (A : Matrix (Fin n) (Fin n) ℚ) (b : Fin n → ℚ) :
    Fin n → ℚ :=
  fun i => detQ n (updCol A i b) / detQ n A

/-- Response-system matrix M of group g (solve_systems, cylindrical_cell.cpp
lines 195-209): M(i,j) = -c_j * p(g,j,i) with c_j = Es_tr_j(g)/Etr_j(g),
plus mats_[j].Etr(g) * vols_[i] added when j = i. -/
def Mmat (cell : CylindricalCell) (p : Nat → Nat → Nat → ℚ) (g n : Nat) :
    Matrix (Fin n) (Fin n) ℚ :=
  Matrix.of fun i j =>
    -((cell.matAt j).Es_tr g / (cell.matAt j).Etr g) * p g (j : Nat) (i : Nat)
      + (if (j : Nat) = (i : Nat) then (cell.matAt j).Etr g * cell.volAt i
         else 0)

/-- Right-hand side of the X system for source region k (lines 216-222):
b(i) = p(g,k,i) / Etr_k(g). -/
def bXvec (cell : CylindricalCell) (p : Nat → Nat → Nat → ℚ) (g k n : Nat) :
    Fin n → ℚ :=
  fun i => p g k (i : Nat) / (cell.matAt k).Etr g

/-- Solution column X(g,·,k) of the factored system. -/
def Xcol (cell : CylindricalCell) (p : Nat → Nat → Nat → ℚ) (g n k : Nat) :
    Fin n → ℚ :=
  linSolve (Mmat cell p g n) (bXvec cell p g k n)

/-- Right-hand side of the Y system (lines 234-246):
b(i) = (4/S) * (Etr_i(g) * V_i - sum over j of p(g,i,j)). -/
def bYvec (cell : CylindricalCell) (p : Nat → Nat → Nat → ℚ) (g n : Nat) :
    Fin n → ℚ :=
  fun i =>
    4 / Ssurf cell *
      ((cell.matAt i).Etr g * cell.volAt i -
        ∑ j ∈ Finset.range n, p g (i : Nat) j)

/-- Solution Y(g,·) of the factored system. -/
def Yvec (cell : CylindricalCell) (p : Nat → Nat → Nat → ℚ) (g n : Nat) :
    Fin n → ℚ :=
  linSolve (Mmat cell p g n) (bYvec cell p g n)

/-- Mutable state of the cell object: the geometry and materials fixed at
construction, the output tensors p_, X_, Y_, the blackness vector Gamma_
(a std::vector) and the solved_ flag. -/
structure CellState where
  cell : CylindricalCell
  p : Nat → Nat → Nat → ℚ
  X : Nat → Nat → Nat → ℚ
  Y : Nat → Nat → ℚ
  Gamma : List ℚ
  solved : Bool

/-- State directly after construction: empty output tensors, empty Gamma
vector, solved_ = false (constructor initialiser list, lines 15-23). -/
def freshState (cell : CylindricalCell) : CellState :=
  ⟨cell, fun _ _ _ => 0, fun _ _ _ => 0, fun _ _ => 0, [], false⟩

/-- Semantics of std::vector resize with fill value zero: keep the first n
existing entries and append zeros only for newly created slots; entries
already present are not reset. -/
def resizeVec (v : List ℚ) (n : Nat) : List ℚ :=
  v.take n ++ List.replicate (n - v.length) 0

/-- Embedding of calculate_collision_probabilities (lines 76-112): the p
tensor is reallocated and every in-range entry recomputed from the cell
constants and the S value table; nothing else of the state changes. -/
def calcCollisionProbs (Sfun : Nat → Nat → Nat → ℚ) (st : CellState) :
    CellState :=
  { st with
    p := fun g i j =>
      if g < st.cell.ngroups ∧ i < st.cell.nregions ∧ j < st.cell.nregions
      then collisionProb st.cell Sfun g i j
      else 0 }

/-- Embedding of solve_systems (lines 182-259): X_ and Y_ are reallocated
and zero-filled, then every in-range entry is recomputed from the current p
tensor; Gamma_ is resized with fill value zero, which leaves entries already
present unchanged, and then accumulated into with +=; solved_ is set. -/
def solveSystems (st : CellState) : CellState :=
  let n := st.cell.nregions
  let ng := st.cell.ngroups
  { st with
    X := fun g i k =>
      if h : g < ng ∧ i < n ∧ k < n then
        Xcol st.cell st.p g n k ⟨i, h.2.1⟩
      else 0
    Y := fun g i =>
      if h : g < ng ∧ i < n then Yvec st.cell st.p g n ⟨i, h.2⟩ else 0
    Gamma := (List.range ng).map (fun g =>
      (resizeVec st.Gamma ng).getD g 0 +
        ∑ i : Fin n,
          (st.cell.matAt i).Er_tr g * st.cell.volAt i *
            Yvec st.cell st.p g n i)
    solved := true }

/-- Embedding of solve() (lines 71-74): the collision probabilities then the
response systems.  The result is wrapped in Except because the spec says a
failure during the solve must propagate as an error; the source code of
solve() and solve_systems contains no throw, so every path returns ok. -/
def CylindricalCell.solve (Sfun : Nat → Nat → Nat → ℚ) (st : CellState) :
    Except String CellState :=
  .ok (solveSystems (calcCollisionProbs Sfun st))

/-- Concrete one-group material used in witnesses: Etr = 1, Es_tr = 0,
Er_tr = 1. -/
def mgOne : MGCrossSections :=
  ⟨1, fun _ => 1, fun _ => 0, fun _ => 1⟩

/-- Concrete one-group material with full in-group scattering: Etr = 1,
Es_tr = 1, Er_tr = 1 (scattering ratio c = 1). -/
def mgScat : MGCrossSections :=
  ⟨1, fun _ => 1, fun _ => 1, fun _ => 1⟩

/-- Concrete two-region, one-group cell with radii 1 and 2, both regions
bound to mgOne; this is the value produced by the constructor. -/
def cellTwo : CylindricalCell :=
  ⟨[1, 2], volsOf [1, 2], [mgOne, mgOne], 1⟩

/-- Concrete two-region, one-group cell with radii 1 and 2, both regions
bound to mgScat. -/
def cellScat : CylindricalCell :=
  ⟨[1, 2], volsOf [1, 2], [mgScat, mgScat], 1⟩

/-- Concrete S value table with S(1,1) = 1 and all other entries 0, standing
in for the integrals of calculate_S_ij in concrete evaluations; for cellScat
it makes the response matrix M singular. -/
def SfunA : Nat → Nat → Nat → ℚ :=
  fun _ i j => if i = 1 ∧ j = 1 then 1 else 0

/-- Characterisation of the sortedness check as a chain of adjacent
non-strict inequalities. -/
theorem isSortedAdj_iff_chain (l : List ℚ) :
    isSortedAdj l = true ↔ List.Chain' (· ≤ ·) l := by
  induction l with
  | nil => simp [isSortedAdj]
  | cons a rest ih =>
    cases rest with
    | nil => simp [isSortedAdj]
    | cons b r =>
      simp only [isSortedAdj, Bool.and_eq_true, decide_eq_true_eq,
        List.chain'_cons] at *
      tauto

/-- Inversion of a successful construction: the stored fields and the
validated properties of the inputs. -/
theorem mkCylindricalCell_ok {radii : List ℚ} {mats : List (Option MGCrossSections)}
    {cell : CylindricalCell} (h : mkCylindricalCell radii mats = .ok cell) :
    cell.radii = radii ∧ cell.vols = volsOf radii ∧
      isSortedAdj radii = true ∧ 0 < radii.headI ∧ 2 ≤ radii.length := by
  unfold mkCylindricalCell at h
  split at h
  · exact absurd h (by simp)
  split at h
  · exact absurd h (by simp)
  split at h
  · exact absurd h (by simp)
  split at h
  · exact absurd h (by simp)
  split at h
  · exact absurd h (by simp)
  dsimp only at h
  split at h
  · exact absurd h (by simp)
  split at h
  · exact absurd h (by simp)
  rename_i h1 h2 h3 h4 h5 h6 h7
  cases h
  refine ⟨rfl, rfl, ?_, ?_, ?_⟩
  · exact Bool.of_not_eq_false h3
  · exact lt_of_not_le h4
  · omega

/-- Claim C4 counterexample: the radii list [1, 1] has two equal adjacent
values, yet the constructor succeeds and a cell is constructed, because
std::is_sorted accepts non-decreasing input. -/
theorem C4_equal_radii_counterexample :
    (mkCylindricalCell [1, 1] [some mgOne, some mgOne]).isOk = true := by
  with_unfolding_all rfl

/-- Claim C4 (amended): construction fails with a configuration error
whenever the radii sequence is not non-decreasing; radii lists with equal
adjacent values pass the sortedness check, which enforces only
non-decreasing order, so strict ascent is not required. -/
theorem C4_unsorted_radii_fail_amended (radii : List ℚ)
    (mats : List (Option MGCrossSections))
    (h : isSortedAdj radii = false) :
    (mkCylindricalCell radii mats).isOk = false := by
  unfold mkCylindricalCell
  repeat' split
  any_goals rfl

/-- Witness for C4: the strictly descending radii list [2, 1] is rejected
by the constructor. -/
theorem C4_unsorted_radii_fail_witness :
    (mkCylindricalCell [2, 1] [some mgOne, some mgOne]).isOk = false :=
  C4_unsorted_radii_fail_amended [2, 1] [some mgOne, some mgOne]
    (by with_unfolding_all rfl)

/-- Telescoping sum of a first-difference map over an index range. -/
theorem telescopeSum (g : Nat → ℚ) (n : Nat) :
    ((List.range n).map (fun i => g i - if i = 0 then 0 else g (i - 1))).sum =
      if n = 0 then 0 else g (n - 1) := by
  induction n with
  | zero => simp
  | succ m ih =>
    rw [List.range_succ, List.map_append, List.sum_append, ih]
    rcases Nat.eq_zero_or_pos m with hm | hm
    · subst hm; simp
    · have hm0 : m ≠ 0 := by omega
      simp only [hm0, if_false, List.map_cons, List.map_nil, List.sum_cons,
        List.sum_nil, Nat.succ_ne_zero, Nat.succ_sub_one]
      ring

/-- Indexing a range-map list below its length evaluates the function. -/
theorem getD_range_map (f : Nat → ℚ) (n i : Nat) (h : i < n) :
    ((List.range n).map f).getD i 0 = f i := by
  rw [List.getD_eq_getElem?_getD, List.getElem?_map, List.getElem?_range h]
  rfl

/-- Claim C9: for every successfully constructed cell, the stored volume of
region i is PI (R_i^2 - R_{i-1}^2) with R_{-1} = 0, and the volumes sum to
the outer disk area PI R_{N-1}^2 (exactly, in this exact-arithmetic
model). -/
theorem C9_volumes {radii : List ℚ} {mats : List (Option MGCrossSections)}
    {cell : CylindricalCell} (h : mkCylindricalCell radii mats = .ok cell) :
    (∀ i, i < cell.vols.length →
        cell.vols.getD i 0 =
          PI * ((cell.radii.getD i 0) ^ 2 -
            (if i = 0 then 0 else cell.radii.getD (i - 1) 0) ^ 2)) ∧
      cell.vols.sum = PI * cell.radii.getD (cell.radii.length - 1) 0 ^ 2 := by
  obtain ⟨hr, hv, hs, hpos, hlen⟩ := mkCylindricalCell_ok h
  constructor
  · intro i hi
    rw [hv, volsOf, List.length_map, List.length_range] at hi
    rw [hv, hr, volsOf, getD_range_map _ _ _ hi]
    split <;> ring
  · rw [hv, hr, volsOf,
      telescopeSum (fun i => PI * radii.getD i 0 * radii.getD i 0)]
    have hne : radii.length ≠ 0 := by omega
    simp only [hne, if_false]
    ring

/-- Witness for C9 at the concrete two-region cell with radii 1 and 2. -/
theorem C9_volumes_witness :
    mkCylindricalCell [1, 2] [some mgOne, some mgOne] = .ok cellTwo ∧
      ((∀ i, i < cellTwo.vols.length →
          cellTwo.vols.getD i 0 =
            PI * ((cellTwo.radii.getD i 0) ^ 2 -
              (if i = 0 then 0 else cellTwo.radii.getD (i - 1) 0) ^ 2)) ∧
        cellTwo.vols.sum =
          PI * cellTwo.radii.getD (cellTwo.radii.length - 1) 0 ^ 2) :=
  ⟨by with_unfolding_all rfl,
    @C9_volumes [1, 2] [some mgOne, some mgOne] cellTwo
      (by with_unfolding_all rfl)⟩

/-- Claim C10: every successfully constructed cell has all radii strictly
positive -- the sortedness check together with the positivity check on the
first radius alone propagates to every radius -- and consequently every
stored region volume is non-negative. -/
theorem C10_radii_positive {radii : List ℚ}
    {mats : List (Option MGCrossSections)} {cell : CylindricalCell}
    (h : mkCylindricalCell radii mats = .ok cell) :
    (∀ r ∈ cell.radii, 0 < r) ∧ (∀ v ∈ cell.vols, 0 ≤ v) := by
  obtain ⟨hr, hv, hs, hpos, hlen⟩ := mkCylindricalCell_ok h
  have hPI : (0 : ℚ) ≤ PI := by with_unfolding_all decide
  have hpair : List.Pairwise (· ≤ ·) radii :=
    List.chain'_iff_pairwise.mp ((isSortedAdj_iff_chain radii).mp hs)
  have hall : ∀ r ∈ radii, 0 < r := by
    cases radii with
    | nil => intro r hmem; cases hmem
    | cons a rest =>
      intro r hmem
      rcases List.mem_cons.mp hmem with h1 | h2
      · exact h1 ▸ hpos
      · exact lt_of_lt_of_le hpos ((List.pairwise_cons.mp hpair).1 r h2)
  have hget : ∀ i, i < radii.length → 0 < radii.getD i 0 := by
    intro i hi
    rw [List.getD_eq_getElem?_getD, List.getElem?_eq_getElem hi]
    exact hall _ (List.getElem_mem hi)
  refine ⟨hr ▸ hall, ?_⟩
  rw [hv]
  intro v hmem
  rw [volsOf] at hmem
  rcases List.mem_map.mp hmem with ⟨i, hi, rfl⟩
  have hilt : i < radii.length := List.mem_range.mp hi
  by_cases h0 : i = 0
  · subst h0
    have hz : (if (0 : Nat) = 0 then (0 : ℚ)
        else PI * radii.getD (0 - 1) 0 * radii.getD (0 - 1) 0) = 0 := rfl
    rw [hz, sub_zero]
    exact mul_nonneg (mul_nonneg hPI (le_of_lt (hget 0 hilt)))
      (le_of_lt (hget 0 hilt))
  · have hprev : i - 1 < radii.length := by omega
    have hle : radii.getD (i - 1) 0 ≤ radii.getD i 0 := by
      rw [List.getD_eq_getElem?_getD, List.getElem?_eq_getElem hprev,
        List.getD_eq_getElem?_getD, List.getElem?_eq_getElem hilt]
      exact List.pairwise_iff_getElem.mp hpair (i - 1) i hprev hilt (by omega)
    have hsq : radii.getD (i - 1) 0 * radii.getD (i - 1) 0 ≤
        radii.getD i 0 * radii.getD i 0 :=
      mul_self_le_mul_self (le_of_lt (hget _ hprev)) hle
    simp only [h0, if_false]
    nlinarith [mul_le_mul_of_nonneg_left hsq hPI]

/-- Witness for C10 at the concrete two-region cell with radii 1 and 2. -/
theorem C10_radii_positive_witness :
    mkCylindricalCell [1, 2] [some mgOne, some mgOne] = .ok cellTwo ∧
      ((∀ r ∈ cellTwo.radii, 0 < r) ∧ (∀ v ∈ cellTwo.vols, 0 ≤ v)) :=
  ⟨by with_unfolding_all rfl,
    @C10_radii_positive [1, 2] [some mgOne, some mgOne] cellTwo
      (by with_unfolding_all rfl)⟩

/-- Foldl over an index range with a componentwise-additive step equals the
pair of range sums. -/
theorem foldl_range_pairSum (A B : Nat → ℚ) (n : Nat) :
    ∀ p q : ℚ,
      (List.range n).foldl (fun tpm s => (tpm.1 + A s, tpm.2 + B s)) (p, q) =
        (p + ∑ s ∈ Finset.range n, A s, q + ∑ s ∈ Finset.range n, B s) := by
  induction n with
  | zero => intro p q; simp
  | succ m ih =>
    intro p q
    rw [List.range_succ, List.foldl_append, ih p q]
    simp only [List.foldl_cons, List.foldl_nil, Prod.ext_iff,
      Finset.sum_range_succ]
    constructor <;> ring

/-- Bridge from the loop of tauAccum to the closed sums: the optical depths
computed by the integrand loop are exactly the spec sum for tau_plus and the
shells-above-i sum for tau_minus. -/
theorem tauAccum_eq_sums (x : List ℚ) (Etr : Nat → ℚ) (k i : Nat) :
    tauAccum x Etr k i = (tauPlusSpec x Etr k i, tauMinusCode x Etr k i) := by
  unfold tauAccum tauPlusSpec tauMinusCode
  have hstep : (fun (tpm : ℚ × ℚ) s =>
      let t := if s = 0 then x.getD s 0 else x.getD s 0 - x.getD (s - 1) 0
      let dtau := t * Etr (s + k)
      if s + k ≤ i then (tpm.1 + 2 * dtau, tpm.2)
      else (tpm.1 + dtau, tpm.2 + dtau)) =
      fun (tpm : ℚ × ℚ) s =>
        (tpm.1 + (if s + k ≤ i then 2 else 1) * (segLen x s * Etr (s + k)),
         tpm.2 + (if s + k ≤ i then 0 else 1) * (segLen x s * Etr (s + k))) := by
    funext tpm s
    simp only [segLen]
    split <;> simp only [Prod.ext_iff] <;> constructor <;> ring
  rw [hstep, foldl_range_pairSum]
  simp

/-- Claim C1 (amended): inside calculate_S_ij, for every shell index k,
midline region index i, cross sections, transverse offset y and abstract
square root, the optical depths fed to the Ki3 difference accumulate chord
segment lengths weighted by each shell's group transport cross section over
the shells s = k..j; shells of index at most i contribute twice their
weighted segment length to tau_plus and nothing to tau_minus, while shells
of index greater than i contribute once to each. -/
theorem C1_tau_accumulation_amended (sqrtQ : ℚ → ℚ) (radii : List ℚ)
    (Etr : Nat → ℚ) (k i j : Nat) (y : ℚ) :
    tauAccum (chordCoords sqrtQ radii k (j + 1 - k) y) Etr k i =
      (tauPlusSpec (chordCoords sqrtQ radii k (j + 1 - k) y) Etr k i,
       tauMinusCode (chordCoords sqrtQ radii k (j + 1 - k) y) Etr k i) :=
  tauAccum_eq_sums _ _ _ _

/-- Claim C1 counterexample: with radii [1, 2], region pair (i,j) = (0,1),
shell k = 0, transverse offset y = 0 and unit transport cross sections (the
square root realised concretely on the two squares that occur), the code's
tau_minus equals 1 -- the inner shell contributes nothing -- while the
claim's accumulation, in which shells of index at most i also contribute
once, equals 2. -/
theorem C1_tau_minus_counterexample :
    (tauAccum (chordCoords (fun q => if q = 1 then 1 else 2) [1, 2] 0 2 0)
        (fun _ => 1) 0 0).2 ≠
      tauMinusClaim
        (chordCoords (fun q => if q = 1 then 1 else 2) [1, 2] 0 2 0)
        (fun _ => 1) 0 := by
  with_unfolding_all decide

/-- Symmetry of a single collision-probability entry: the lower triangle is
the copied value of the upper-triangle computation. -/
theorem collisionProb_symm (cell : CylindricalCell)
    (Sfun : Nat → Nat → Nat → ℚ) (g i j : Nat) :
    collisionProb cell Sfun g i j = collisionProb cell Sfun g j i := by
  unfold collisionProb pEntry
  rcases Nat.lt_trichotomy i j with h | h | h
  · rw [if_pos (le_of_lt h), if_neg (not_le.mpr h)]
  · subst h; rfl
  · rw [if_neg (not_le.mpr h), if_pos (le_of_lt h)]

/-- Claim C5: for every group g and region pair (i,j) with i ≤ j, the
stored collision probability is the second difference of the S factors,
P(i,j) = 2 S(i,j) + 2 S(i-1,j-1) - 2 S(i-1,j) - 2 S(i,j-1) with terms of
negative index omitted, plus the self-collision diagonal term Etr_i(g) V_i
added exactly when i = j. -/
theorem C5_second_difference (cell : CylindricalCell)
    (Sfun : Nat → Nat → Nat → ℚ) (g i j : Nat) (hij : i ≤ j) :
    collisionProb cell Sfun g i j =
      2 * S_of (Sfun g) i j +
        (if 0 < i ∧ 0 < j then 2 * S_of (Sfun g) (i - 1) (j - 1) else 0) -
        (if 0 < i then 2 * S_of (Sfun g) (i - 1) j else 0) -
        (if 0 < j then 2 * S_of (Sfun g) i (j - 1) else 0) +
        (if i = j then (cell.matAt i).Etr g * cell.volAt i else 0) := by
  simp only [collisionProb, pEntry, pUpper, hij, if_true]
  split <;> split <;> split <;> split <;> ring

/-- Witness for C5 at the concrete two-region cell, region pair (0,1). -/
theorem C5_second_difference_witness :
    (0 : Nat) ≤ 1 ∧
      collisionProb cellTwo SfunA 0 0 1 =
        2 * S_of (SfunA 0) 0 1 +
          (if 0 < 0 ∧ 0 < 1 then 2 * S_of (SfunA 0) (0 - 1) (1 - 1) else 0) -
          (if 0 < 0 then 2 * S_of (SfunA 0) (0 - 1) 1 else 0) -
          (if 0 < 1 then 2 * S_of (SfunA 0) 0 (1 - 1) else 0) +
          (if (0 : Nat) = 1 then (cellTwo.matAt 0).Etr 0 * cellTwo.volAt 0
           else 0) :=
  ⟨by decide, C5_second_difference cellTwo SfunA 0 0 1 (by decide)⟩

/-- Claim C8: after calculate_collision_probabilities runs, the stored p
tensor is exactly symmetric in its two region indices for every group, and
it is unchanged by the subsequent solve_systems, so the symmetry holds in
every state in which p has been computed. -/
theorem C8_p_symmetric (Sfun : Nat → Nat → Nat → ℚ) (st : CellState)
    (g i j : Nat) :
    (calcCollisionProbs Sfun st).p g i j =
        (calcCollisionProbs Sfun st).p g j i ∧
      (solveSystems (calcCollisionProbs Sfun st)).p =
        (calcCollisionProbs Sfun st).p := by
  constructor
  · unfold calcCollisionProbs
    dsimp only
    by_cases h1 : g < st.cell.ngroups ∧ i < st.cell.nregions ∧
        j < st.cell.nregions
    · have h2 : g < st.cell.ngroups ∧ j < st.cell.nregions ∧
          i < st.cell.nregions := ⟨h1.1, h1.2.2, h1.2.1⟩
      rw [if_pos h1, if_pos h2]
      exact collisionProb_symm st.cell Sfun g i j
    · have h2 : ¬(g < st.cell.ngroups ∧ j < st.cell.nregions ∧
          i < st.cell.nregions) := by tauto
      rw [if_neg h1, if_neg h2]
  · rfl

/-- The Laplace expansion detQ agrees with the Mathlib determinant. -/
theorem detQ_eq_det (n : Nat) :
    ∀ A : Matrix (Fin n) (Fin n) ℚ, detQ n A = A.det := by
  induction n with
  | zero => intro A; simp [detQ, Matrix.det_fin_zero]
  | succ m ih =>
    intro A
    rw [Matrix.det_succ_row_zero, detQ]
    exact Finset.sum_congr rfl fun j _ => by rw [ih]

/-- updCol is the Mathlib column update. -/
theorem updCol_eq_updateColumn (n : Nat) (A : Matrix (Fin n) (Fin n) ℚ)
    (i : Fin n) (b : Fin n → ℚ) : updCol A i b = A.updateColumn i b := by
  ext r c
  simp [updCol, Matrix.updateColumn, Function.update_apply]

/-- Cramer solve correctness: on a matrix with non-zero determinant the
model of the QR solve returns the exact solution of A x = b. -/
theorem linSolve_correct {n : Nat} (A : Matrix (Fin n) (Fin n) ℚ)
    (b : Fin n → ℚ) (hdet : detQ n A ≠ 0) : A.mulVec (linSolve A b) = b := by
  rw [detQ_eq_det] at hdet
  have h1 : linSolve A b = A.det⁻¹ • Matrix.cramer A b := by
    funext i
    simp [linSolve, detQ_eq_det, updCol_eq_updateColumn, Matrix.cramer_apply,
      div_eq_inv_mul, Pi.smul_apply, smul_eq_mul]
  rw [h1, Matrix.mulVec_smul, Matrix.mulVec_cramer, smul_smul,
    inv_mul_cancel₀ hdet, one_smul]

/-- Claim C6: for every group g the response-system matrix satisfies
M(i,j) = -c_j P(g,j,i) + (Etr_i(g) V_i on the diagonal) with
c_j = Es_tr_j(g)/Etr_j(g), and, when M is invertible, every stored column
X(g,·,k) solves M x = b_k with right-hand side b_k(i) = P(g,k,i)/Etr_k(g). -/
theorem C6_response_system (cell : CylindricalCell)
    (p : Nat → Nat → Nat → ℚ) (g n : Nat)
    (hdet : detQ n (Mmat cell p g n) ≠ 0) :
    (∀ i j : Fin n, Mmat cell p g n i j =
        -((cell.matAt (j : Nat)).Es_tr g / (cell.matAt (j : Nat)).Etr g) *
            p g (j : Nat) (i : Nat) +
          (if (j : Nat) = (i : Nat)
           then (cell.matAt (j : Nat)).Etr g * cell.volAt (i : Nat)
           else 0)) ∧
      ∀ k : Nat,
        (Mmat cell p g n).mulVec (Xcol cell p g n k) = bXvec cell p g k n := by
  refine ⟨fun i j => rfl, fun k => ?_⟩
  unfold Xcol
  exact linSolve_correct _ _ hdet

/-- Witness for C6 at the concrete two-region cell and its computed p
tensor: the group-0 response matrix has non-zero determinant and the
conclusion holds there. -/
theorem C6_response_system_witness :
    detQ 2 (Mmat cellTwo
        (calcCollisionProbs SfunA (freshState cellTwo)).p 0 2) ≠ 0 ∧
      ((∀ i j : Fin 2,
          Mmat cellTwo (calcCollisionProbs SfunA (freshState cellTwo)).p 0 2
              i j =
            -((cellTwo.matAt (j : Nat)).Es_tr 0 /
                  (cellTwo.matAt (j : Nat)).Etr 0) *
                (calcCollisionProbs SfunA (freshState cellTwo)).p 0 (j : Nat)
                  (i : Nat) +
              (if (j : Nat) = (i : Nat)
               then (cellTwo.matAt (j : Nat)).Etr 0 * cellTwo.volAt (i : Nat)
               else 0)) ∧
        ∀ k : Nat,
          (Mmat cellTwo
              (calcCollisionProbs SfunA (freshState cellTwo)).p 0 2).mulVec
              (Xcol cellTwo
                (calcCollisionProbs SfunA (freshState cellTwo)).p 0 2 k) =
            bXvec cellTwo
              (calcCollisionProbs SfunA (freshState cellTwo)).p 0 k 2) :=
  ⟨by with_unfolding_all decide,
    C6_response_system cellTwo
      (calcCollisionProbs SfunA (freshState cellTwo)).p 0 2
      (by with_unfolding_all decide)⟩

/-- Indexing a replicate of zeros always yields zero. -/
theorem getD_replicate_zero (n g : Nat) :
    (List.replicate n (0 : ℚ)).getD g 0 = 0 := by
  induction n generalizing g with
  | zero => cases g <;> rfl
  | succ m ih =>
    cases g with
    | zero => rfl
    | succ t => exact ih t

/-- Claim C7: for every group g on a freshly constructed cell, the stored Y
solves the factored response system M with right-hand side
b(i) = (4/S_surf) (Etr_i(g) V_i - sum over j of P(g,i,j)), where the
surface measure is a group-independent geometric constant of the cell, and
the stored blackness scalar is
Gamma(g) = sum over i of Er_tr_i(g) V_i Y(g,i). -/
theorem C7_blackness_system (cell : CylindricalCell)
    (Sfun : Nat → Nat → Nat → ℚ) (g : Nat) (hg : g < cell.ngroups)
    (hdet : detQ cell.nregions
        (Mmat cell (calcCollisionProbs Sfun (freshState cell)).p g
          cell.nregions) ≠ 0) :
    (Mmat cell (calcCollisionProbs Sfun (freshState cell)).p g
          cell.nregions).mulVec
        (fun i : Fin cell.nregions =>
          (solveSystems (calcCollisionProbs Sfun (freshState cell))).Y g
            (i : Nat)) =
      bYvec cell (calcCollisionProbs Sfun (freshState cell)).p g
        cell.nregions ∧
    (solveSystems (calcCollisionProbs Sfun (freshState cell))).Gamma.getD g
        0 =
      ∑ i : Fin cell.nregions,
        (cell.matAt (i : Nat)).Er_tr g * cell.volAt (i : Nat) *
          (solveSystems (calcCollisionProbs Sfun (freshState cell))).Y g
            (i : Nat) := by
  have hY : (fun i : Fin cell.nregions =>
      (solveSystems (calcCollisionProbs Sfun (freshState cell))).Y g
        (i : Nat)) =
      Yvec cell (calcCollisionProbs Sfun (freshState cell)).p g
        cell.nregions := by
    funext i
    dsimp only [solveSystems]
    rw [dif_pos ⟨hg, i.isLt⟩]
    rfl
  have hYi : ∀ i : Fin cell.nregions,
      (solveSystems (calcCollisionProbs Sfun (freshState cell))).Y g
        (i : Nat) =
      Yvec cell (calcCollisionProbs Sfun (freshState cell)).p g
        cell.nregions i :=
    fun i => congrFun hY i
  constructor
  · rw [hY]
    exact linSolve_correct _ _ hdet
  · simp only [hYi]
    dsimp only [solveSystems]
    simp only
      [show (calcCollisionProbs Sfun (freshState cell)).cell = cell from rfl,
       show (calcCollisionProbs Sfun (freshState cell)).Gamma = ([] : List ℚ)
         from rfl]
    rw [getD_range_map _ _ _ hg]
    dsimp only [resizeVec]
    rw [List.take_nil, List.nil_append, getD_replicate_zero, zero_add]
    rfl

/-- Witness for C7 at the concrete two-region cell, group 0. -/
theorem C7_blackness_system_witness :
    (0 < cellTwo.ngroups ∧
        detQ cellTwo.nregions
            (Mmat cellTwo (calcCollisionProbs SfunA (freshState cellTwo)).p 0
              cellTwo.nregions) ≠ 0) ∧
      ((Mmat cellTwo (calcCollisionProbs SfunA (freshState cellTwo)).p 0
            cellTwo.nregions).mulVec
          (fun i : Fin cellTwo.nregions =>
            (solveSystems (calcCollisionProbs SfunA (freshState cellTwo))).Y 0
              (i : Nat)) =
        bYvec cellTwo (calcCollisionProbs SfunA (freshState cellTwo)).p 0
          cellTwo.nregions ∧
      (solveSystems
            (calcCollisionProbs SfunA (freshState cellTwo))).Gamma.getD 0 0 =
        ∑ i : Fin cellTwo.nregions,
          (cellTwo.matAt (i : Nat)).Er_tr 0 * cellTwo.volAt (i : Nat) *
            (solveSystems (calcCollisionProbs SfunA (freshState cellTwo))).Y 0
              (i : Nat)) :=
  ⟨⟨by decide, by with_unfolding_all decide⟩,
    C7_blackness_system cellTwo SfunA 0 (by decide)
      (by with_unfolding_all decide)⟩

/-- Claim C2 evaluation (code bug): on the concrete two-region cell, a
second solve() reproduces p, X and Y exactly but not Gamma: Gamma_ is
resized with fill value zero, which does not reset the entry left by the
first call, and the += accumulation then adds the same per-group sum on
top of it, so the second call doubles Gamma. -/
theorem C2_second_solve_gamma_bug :
    (solveSystems (calcCollisionProbs SfunA
          (solveSystems (calcCollisionProbs SfunA (freshState cellTwo))))).p =
        (solveSystems (calcCollisionProbs SfunA (freshState cellTwo))).p ∧
      (solveSystems (calcCollisionProbs SfunA
          (solveSystems (calcCollisionProbs SfunA (freshState cellTwo))))).X =
        (solveSystems (calcCollisionProbs SfunA (freshState cellTwo))).X ∧
      (solveSystems (calcCollisionProbs SfunA
          (solveSystems (calcCollisionProbs SfunA (freshState cellTwo))))).Y =
        (solveSystems (calcCollisionProbs SfunA (freshState cellTwo))).Y ∧
      (solveSystems (calcCollisionProbs SfunA
            (solveSystems
              (calcCollisionProbs SfunA (freshState cellTwo))))).Gamma ≠
        (solveSystems (calcCollisionProbs SfunA (freshState cellTwo))).Gamma :=
  ⟨rfl, rfl, rfl, by with_unfolding_all decide⟩

/-- Claim C3 counterexample: on a concrete cell whose group-0 response
matrix M is singular, solve() still returns ok, exposing the per-group
results; no error propagates because solve_systems performs no singularity
or factorisation check. -/
theorem C3_singular_solve_counterexample :
    detQ 2 (Mmat cellScat
          (calcCollisionProbs SfunA (freshState cellScat)).p 0 2) = 0 ∧
      (CylindricalCell.solve SfunA (freshState cellScat)).isOk = true :=
  ⟨by with_unfolding_all decide, rfl⟩

/-- Claim C3 (amended): solve() never reports an error; the solve path
contains no singularity or factorisation check, so even a singular
response matrix is silently tolerated and the per-group results are
stored. -/
theorem C3_no_error_amended (Sfun : Nat → Nat → Nat → ℚ) (st : CellState) :
    (CylindricalCell.solve Sfun st).isOk = true := rfl
